import Mathlib

/-!
Verification of the CSS important-marker audit tool
(`scripts/audit-important.py` of the Radial-Timeline repository).

The tool is embedded shallowly: each Python function of the script is
translated into an executable Lean definition over `List Char` / `String`,
machine-faithful to the source (Python `str` methods, the one regular
expression the script uses, `range(a, b, -1)` loops, `defaultdict`
grouping and `sorted` iteration are each given a direct Lean model).
File-system interaction in `main` is abstracted as an optional list of
(file name, file content) pairs; everything else follows the source line
by line.
-/

namespace RadialTimeline

/-! ## Python string primitives -/

/-- The characters Python's `str.strip()` and the regex class `\s` treat as
whitespace (ASCII range; the inputs of the tool are CSS source). -/
def isPySpace (c : Char) : Bool :=
  c = ' ' || c = '\t' || c = '\n' || c = '\r' || c = '\x0b' || c = '\x0c'

/-- ASCII lower-casing, as applied by `re.IGNORECASE` to the pattern
literals of the script. -/
def lcChar (c : Char) : Char :=
  if 'A' ≤ c && c ≤ 'Z' then Char.ofNat (c.toNat + 32) else c

/-- `startsWithChars pat s` is true when `pat` is an initial run of `s`
(Python `s.startswith(pat)`). -/
def startsWithChars : List Char → List Char → Bool
  | [], _ => true
  | _ :: _, [] => false
  | p :: ps, c :: cs => p == c && startsWithChars ps cs

/-- `endsWithChars pat s`: Python `s.endswith(pat)`. -/
def endsWithChars (pat s : List Char) : Bool :=
  startsWithChars pat.reverse s.reverse

/-- `hasSubChars pat s`: Python's substring test `pat in s`. -/
def hasSubChars (pat : List Char) : List Char → Bool
  | [] => startsWithChars pat []
  | c :: cs => startsWithChars pat (c :: cs) || hasSubChars pat cs

/-- Substring test on `String` (Python `pat in s`). -/
def strIn (pat s : String) : Bool := hasSubChars pat.data s.data

/-- Python `s.strip()`: drop whitespace from both ends. -/
def stripChars (s : List Char) : List Char :=
  ((s.dropWhile isPySpace).reverse.dropWhile isPySpace).reverse

/-- Python `s.rstrip(';')`: drop every trailing semicolon. -/
def rstripSemis (s : List Char) : List Char :=
  (s.reverse.dropWhile (· == ';')).reverse

/-- Index of the first occurrence of `c` in `s`, if any. -/
def findCharIdx (c : Char) : List Char → Option Nat
  | [] => none
  | d :: ds => if d == c then some 0 else (findCharIdx c ds).map (· + 1)

/-- Python `s.find('\x7b')`: index of the first opening brace, `-1` when
absent. -/
def pyFindBrace (s : List Char) : Int :=
  match findCharIdx '\x7b' s with
  | some n => (n : Int)
  | none => -1

/-- Python `content.split('\n')`: every line, empty fragments preserved. -/
def splitOnNl : List Char → List (List Char)
  | [] => [[]]
  | c :: cs =>
    if c = '\n' then [] :: splitOnNl cs
    else
      match splitOnNl cs with
      | l :: ls => (c :: l) :: ls
      | [] => [[c]]

/-- `rangeDownN n start = [start, start-1, ..., start-n+1]`. -/
def rangeDownN : Nat → Int → List Int
  | 0, _ => []
  | n + 1, start => start :: rangeDownN n (start - 1)

/-- Python `range(start, stop, -1)`. -/
def rangeDown (start stop : Int) : List Int :=
  rangeDownN (start - stop).toNat start

/-- The index list `range(line_num - 2, max(0, line_num - cap), -1)` used by
both backward scans of the script, converted to `Nat` indexes into the line
list (every element of the Python range is nonnegative here). -/
def lookbackIdx (line_num cap : Nat) : List Nat :=
  (rangeDown ((line_num : Int) - 2) (max 0 ((line_num : Int) - (cap : Int)))).map Int.toNat

/-! ## The regular expression `([a-z-]+)\s*:\s*(.+?)!important`

The script detects a declaration with
`re.search(r'([a-z-]+)\s*:\s*(.+?)!important', line, re.IGNORECASE)`.
The definitions below implement exactly that search: leftmost start
position wins; the character class `[a-z-]` (case-insensitive, so also
`A`–`Z`) is matched greedily with backtracking; each `\s*` is matched
greedily with backtracking; `(.+?)` is lazy (shortest first, at least one
character, never a newline); the literal `!important` is matched
case-insensitively. -/

/-- The important-marker literal. -/
def impChars : List Char := "!important".data

/-- The character class `[a-z-]` under `re.IGNORECASE`. -/
def isPropChar (c : Char) : Bool :=
  ('a' ≤ c && c ≤ 'z') || ('A' ≤ c && c ≤ 'Z') || c == '-'

/-- Case-insensitive match of the lowercase pattern `pat` against the
start of `s`. -/
def startsWithCI : List Char → List Char → Bool
  | [], _ => true
  | _ :: _, [] => false
  | p :: ps, c :: cs => p == lcChar c && startsWithCI ps cs

/-- Lazy `(.+?)!important`: consume the shortest nonempty run of
non-newline characters after which the important literal matches, and
return that run (the capture of group 2). -/
def lazyVal (acc : List Char) : List Char → Option (List Char)
  | [] => none
  | c :: cs =>
    if c = '\n' then none
    else if startsWithCI impChars cs then some (acc ++ [c])
    else lazyVal (acc ++ [c]) cs

/-- `\s*(.+?)!important` with the greedy `\s*` backtracking from `k`
whitespace characters down to zero. -/
def wsThenLazy (rest : List Char) : Nat → Option (List Char)
  | 0 => lazyVal [] rest
  | k + 1 =>
    match lazyVal [] (rest.drop (k + 1)) with
    | some v => some v
    | none => wsThenLazy rest k

/-- The tail `\s*(.+?)!important` of the pattern, starting greedy. -/
def tailMatch (rest : List Char) : Option (List Char) :=
  wsThenLazy rest (rest.takeWhile isPySpace).length

/-- A literal `:` followed by the tail of the pattern. -/
def colonAt : List Char → Option (List Char)
  | ':' :: rest => tailMatch rest
  | _ => none

/-- `\s*:\s*(.+?)!important` with the first greedy `\s*` backtracking from
`k` characters down to zero. -/
def wsThenColon (rest : List Char) : Nat → Option (List Char)
  | 0 => colonAt rest
  | k + 1 =>
    match colonAt (rest.drop (k + 1)) with
    | some v => some v
    | none => wsThenColon rest k

/-- Group 1 `[a-z-]+` (greedy, backtracking from length `k` down to one
character) followed by the rest of the pattern; returns the captures of
groups 1 and 2. -/
def propThenRest (cs : List Char) : Nat → Option (List Char × List Char)
  | 0 => none
  | k + 1 =>
    let rest := cs.drop (k + 1)
    match wsThenColon rest (rest.takeWhile isPySpace).length with
    | some v => some (cs.take (k + 1), v)
    | none => propThenRest cs k

/-- Attempt the whole pattern anchored at the start of `cs`. -/
def attemptAt (cs : List Char) : Option (List Char × List Char) :=
  propThenRest cs (cs.takeWhile isPropChar).length

/-- `re.search` of the pattern: try every start position left to right. -/
def reSearchImp : List Char → Option (List Char × List Char)
  | [] => none
  | c :: cs =>
    match attemptAt (c :: cs) with
    | some r => some r
    | none => reSearchImp cs

/-! ## Data model and classifier -/

/-- One finding of the audit: the dataclass `ImportantDeclaration` of the
script. -/
structure ImportantDeclaration where
  file : String
  line_number : Nat
  selector : String
  property : String
  value : String
  category : String
deriving Repr, DecidableEq

/-- The mode-override selector fragments (`mode_patterns` in the script). -/
def mode_patterns : List String :=
  ["[data-shift-mode", "[data-gossamer-mode", "[data-chronologue-mode",
   "[data-mode=", ".rt-mode-", ".rt-shift-mode", ".rt-gossamer-",
   ".rt-runtime-mode"]

/-- The selection-state selector fragments (`state_patterns`). -/
def state_patterns : List String :=
  [".rt-selected", ".rt-non-selected", ".rt-search-result",
   ".rt-scene-is-open", ".rt-has-edits", ".rt-missing-when", ".rt-grade-",
   ".rt-global-fade"]

/-- The validation-state selector fragments (`validation_patterns`). -/
def validation_patterns : List String :=
  [".rt-input-error", ".rt-setting-input-success", ".rt-setting-input-error",
   ".rt-flash-"]

/-- The host-application reset fragments (`obsidian_patterns`). -/
def obsidian_patterns : List String :=
  [".setting-item", ".modal-content", ".modal-title", ".dropdown",
   ".markdown-preview"]

/-- `categorize_selector` of the script: a chain of substring-membership
tests, first match wins, falling through to `7_other`.  (The script also
computes `selector.lower()` but never uses it, and ignores its
`property_value` argument; both are reproduced faithfully.) -/
def categorize_selector (selector : String) (property_value : String) : String :=
  if strIn "[data-subplot-idx" selector then "6_subplot_colors"
  else if mode_patterns.any (fun p => strIn p selector) then "5_mode_overrides"
  else if state_patterns.any (fun p => strIn p selector) then "4_selection_states"
  else if strIn ":hover" selector || strIn ".scene-hover" selector
          || strIn ".rt-hover" selector then "3_hover_states"
  else if validation_patterns.any (fun p => strIn p selector) then "2_validation_states"
  else if obsidian_patterns.any (fun p => strIn p selector) then "1_obsidian_resets"
  else "7_other"

/-! ## The line scanner of `parse_css_file` -/

/-- The mutable scan state of `parse_css_file`: the current selector text
and the running brace depth. -/
structure ScanState where
  current_selector : List Char
  brace_depth : Int
deriving Repr, DecidableEq

/-- An opening brace. -/
def obr : List Char := ['\x7b']

/-- A closing brace. -/
def cbr : List Char := ['\x7d']

/-- Comment-opening token. -/
def slashStar : List Char := ['/', '*']

/-- Comment-continuation token. -/
def starTok : List Char := ['*']

/-- The backward scan for a selector when a line starts with `\x7b` at
top level (source lines 128–134): walk `range(line_num-2, max(0,
line_num-10), -1)` and adopt the first stripped line that is nonempty, is
not a comment line, and contains no brace. -/
def lookBackSelector (lines : List (List Char)) (line_num : Nat) : Option (List Char) :=
  (lookbackIdx line_num 10).findSome? fun i =>
    let prev := stripChars (lines.getD i [])
    if prev ≠ [] ∧ ¬ startsWithChars slashStar prev ∧ ¬ startsWithChars starTok prev
        ∧ ¬ hasSubChars obr prev ∧ ¬ hasSubChars cbr prev
    then some prev else none

/-- The backward scan used during extraction when the tracked selector is
empty (source lines 153–162): walk `range(line_num-2, max(0,
line_num-20), -1)` for the first stripped line that ends with `\x7b`
(take everything before the final brace) or contains `\x7b` (take
everything before its first occurrence). -/
def lookBackFallback (lines : List (List Char)) (line_num : Nat) : Option (List Char) :=
  (lookbackIdx line_num 20).findSome? fun i =>
    let prev := stripChars (lines.getD i [])
    if endsWithChars obr prev then some (stripChars prev.dropLast)
    else if hasSubChars obr prev then
      some (stripChars (prev.take (pyFindBrace prev).toNat))
    else none

/-- The selector-tracking step of the loop body (source lines 112–140):
update the current selector from a brace line, update the depth by
`opens - closes`, and clear the selector when the depth returns to zero
on a line with a closing brace. -/
def trackSelector (lines : List (List Char)) (st : ScanState) (line_num : Nat)
    (line : List Char) : ScanState :=
  let open_braces := line.count '\x7b'
  let close_braces := line.count '\x7d'
  let sel1 :=
    if open_braces > 0 then
      let brace_pos := pyFindBrace line
      if brace_pos > 0 then
        let potential := stripChars (line.take brace_pos.toNat)
        if potential ≠ [] ∧ ¬ startsWithChars slashStar potential then potential
        else st.current_selector
      else if st.brace_depth = 0 then
        match lookBackSelector lines line_num with
        | some s => s
        | none => st.current_selector
      else st.current_selector
    else st.current_selector
  let depth := st.brace_depth + (open_braces : Int) - (close_braces : Int)
  let sel2 := if depth = 0 ∧ close_braces > 0 then [] else sel1
  ⟨sel2, depth⟩

/-- The extraction step of the loop body (source lines 142–173): when the
line contains the important marker and the regular expression matches,
build a declaration record.  `sel` is the current selector after the
tracking step; when it is empty the fallback backward scan is tried. -/
def extractAt (lines : List (List Char)) (fname : String) (sel : List Char)
    (line_num : Nat) (line : List Char) : Option ImportantDeclaration :=
  if hasSubChars impChars line then
    match reSearchImp line with
    | some (propCs, rawCs) =>
      let prop := stripChars propCs
      let value := stripChars (rstripSemis (stripChars rawCs))
      let selector :=
        if sel = [] then
          match lookBackFallback lines line_num with
          | some s => s
          | none => sel
        else sel
      some { file := fname, line_number := line_num,
             selector := String.mk selector, property := String.mk prop,
             value := String.mk value,
             category := categorize_selector (String.mk selector)
               (String.mk prop ++ ": " ++ String.mk value) }
    | none => none
  else none

/-- One iteration of the `for line_num, line in enumerate(lines, 1)` loop. -/
def processLine (lines : List (List Char)) (fname : String) (st : ScanState)
    (line_num : Nat) (line : List Char) : ScanState × Option ImportantDeclaration :=
  let st' := trackSelector lines st line_num line
  (st', extractAt lines fname st'.current_selector line_num line)

/-- The whole scanning loop, threading the state through the remaining
lines; `n` is the 1-based number of the first line of `rest`. -/
def scanFrom (lines : List (List Char)) (fname : String) :
    ScanState → Nat → List (List Char) → List ImportantDeclaration
  | _, _, [] => []
  | st, n, l :: rest =>
    match processLine lines fname st n l with
    | (st', some r) => r :: scanFrom lines fname st' (n + 1) rest
    | (st', none) => scanFrom lines fname st' (n + 1) rest

/-- `parse_css_file` of the script: split the file content on newlines and
scan the lines with an initially empty selector and zero depth. -/
def parse_css_file (fname : String) (content : String) : List ImportantDeclaration :=
  let lines := splitOnNl content.data
  scanFrom lines fname ⟨[], 0⟩ 1 lines

/-! ## Aggregation and the structured report (`main`) -/

/-- Append `x` under key `k`: the effect of `defaultdict(list)`'s
`d[k].append(x)` — a new key is created at the end, an existing key keeps
its position and its list grows at the end. -/
def addToGroup {α : Type} (k : String) (x : α) :
    List (String × List α) → List (String × List α)
  | [] => [(k, [x])]
  | (k0, xs) :: rest =>
    if k0 = k then (k0, xs ++ [x]) :: rest
    else (k0, xs) :: addToGroup k x rest

/-- Group a list by a key, `defaultdict(list)` style: keys in first
occurrence order, each group in original order. -/
def groupByKey {α : Type} (key : α → String) (xs : List α) :
    List (String × List α) :=
  xs.foldl (fun acc x => addToGroup (key x) x acc) []

/-- Dictionary access `groups[k]` (used only for keys that are present). -/
def lookupGroup {α : Type} (groups : List (String × List α)) (k : String) :
    List α :=
  match groups.find? (fun p => p.1 == k) with
  | some p => p.2
  | none => []

/-- Python string comparison (`<`): lexicographic on code points, a
proper prefix sorts first. -/
def ltChars : List Char → List Char → Bool
  | _, [] => false
  | [], _ :: _ => true
  | a :: as, b :: bs =>
    if a < b then true else if b < a then false else ltChars as bs

/-- `ltChars` on `String`. -/
def ltStr (a b : String) : Bool := ltChars a.data b.data

/-- Insertion into a run sorted by `ltStr` on the key (keeps equal keys
stable, like Python's `sorted`). -/
def insertByKey {α : Type} (key : α → String) (x : α) : List α → List α
  | [] => [x]
  | y :: ys =>
    if ltStr (key y) (key x) then y :: insertByKey key x ys
    else x :: y :: ys

/-- `sorted(...)` by a string key. -/
def sortByKey {α : Type} (key : α → String) : List α → List α
  | [] => []
  | x :: xs => insertByKey key x (sortByKey key xs)

/-- The `category_names` table of the script. -/
def category_names : List (String × String) :=
  [("1_obsidian_resets", "Category 1: Obsidian Resets"),
   ("2_validation_states", "Category 2: Validation States"),
   ("3_hover_states", "Category 3: Hover States"),
   ("4_selection_states", "Category 4: Selection States"),
   ("5_mode_overrides", "Category 5: Mode Overrides"),
   ("6_subplot_colors", "Category 6: Subplot Colors"),
   ("7_other", "Category 7: Other/Uncategorized")]

/-- `category_names.get(cat_key, cat_key)`. -/
def catName (k : String) : String :=
  match category_names.find? (fun p => p.1 == k) with
  | some p => p.2
  | none => k

/-- One entry of `report['by_category']`: display name, count, and the
per-file mapping to that category's records. -/
structure CategoryEntry where
  name : String
  count : Nat
  files : List (String × List ImportantDeclaration)
deriving Repr, DecidableEq

/-- The structured JSON report written by `main` (mappings are modelled as
association lists in Python dict insertion order). -/
structure Report where
  total : Nat
  by_category : List (String × CategoryEntry)
  declarations : List ImportantDeclaration
deriving Repr, DecidableEq

/-- Building the report object (source lines 203–249): group all records
by category, then emit one entry per category key in `sorted` key order,
each with its display name, its record count, and its records grouped by
file name. -/
def buildReport (all : List ImportantDeclaration) : Report :=
  let groups := groupByKey (fun d => d.category) all
  let sortedKeys := sortByKey (fun k => k) (groups.map Prod.fst)
  { total := all.length
    by_category := sortedKeys.map fun k =>
      (k, { name := catName k
            count := (lookupGroup groups k).length
            files := groupByKey (fun d => d.file) (lookupGroup groups k) })
    declarations := all }

/-- The scan-and-aggregate pipeline of `main` for a given directory
content: parse every style-sheet file in sorted file-name order, collect
all records in (file order, line order), and build the report. -/
def runReport (files : List (String × String)) : Report :=
  buildReport (((sortByKey Prod.fst files).map
    (fun p => parse_css_file p.1 p.2)).flatten)

/-- The externally observable outcome of one run of `main`. -/
structure RunResult where
  missing_dir_error : Bool
  files_scanned : Nat
  report : Option Report
deriving Repr, DecidableEq

/-- `main` of the script, with the file system abstracted: `none` models a
missing styles directory (the `not styles_dir.exists()` branch: an error
message and an early return, no scanning, no report file), `some files`
models the directory listing as (name, UTF-8 content) pairs. -/
def runMain (styles : Option (List (String × String))) : RunResult :=
  match styles with
  | none => { missing_dir_error := true, files_scanned := 0, report := none }
  | some files =>
    { missing_dir_error := false
      files_scanned := files.length
      report := some (runReport files) }

/-! ## Claim C1, C2, C5: concrete scan scenarios -/

/-- Claim C1 (counterexample).  For the single-line file
`.rt-selected \x7b color: red!important; \x7d` the scan does produce one
record with property `color` and value `red`, but its selector is the
empty string and its category is `7_other`, not `.rt-selected` /
`4_selection_states` as claimed: the closing brace on the same line
returns the depth to zero, which clears the tracked selector before the
important marker is processed, and the backward fallback window
`range(-1, 0, -1)` is empty on line 1. -/
theorem C1_counterexample :
    parse_css_file "timeline.css" ".rt-selected \x7b color: red!important; \x7d" =
      [{ file := "timeline.css", line_number := 1, selector := "",
         property := "color", value := "red", category := "7_other" }] ∧
    ("" : String) ≠ ".rt-selected" ∧ ("7_other" : String) ≠ "4_selection_states" := by
  refine ⟨by decide, by decide, by decide⟩

/-- Claim C1 (amended): for a file whose only content is the single line
`.rt-selected \x7b color: red!important; \x7d`, the scan produces exactly
one declaration record with property `color`, value `red`, selector `""`
(recovery fails because the rule also closes on that line), and category
`7_other`. -/
theorem C1_amended :
    parse_css_file "timeline.css" ".rt-selected \x7b color: red!important; \x7d" =
      [{ file := "timeline.css", line_number := 1, selector := "",
         property := "color", value := "red", category := "7_other" }] := by
  decide

/-- Claim C2 (counterexample).  For the four-line file
`.modal-content` / `\x7b` / `  padding: 0 !important;` / `\x7d` the scan
produces one record, but its selector is the empty string and its
category `7_other`: the backward selector scan from the brace line is the
empty range `range(0, 0, -1)` (the first file line is unreachable), and
the extraction fallback stops at the bare `\x7b` line, whose text before
the brace is empty. -/
theorem C2_counterexample :
    parse_css_file "style.css" ".modal-content\n\x7b\n  padding: 0 !important;\n\x7d" =
      [{ file := "style.css", line_number := 3, selector := "",
         property := "padding", value := "0", category := "7_other" }] ∧
    ("" : String) ≠ ".modal-content" ∧ ("7_other" : String) ≠ "1_obsidian_resets" := by
  refine ⟨by decide, by decide, by decide⟩

/-- Claim C2 (amended): for the file with selector and opening brace on
separate lines, the scan produces exactly one record (property `padding`,
value `0`, line 3), but the selector is recovered as the empty string and
the category is `7_other`. -/
theorem C2_amended :
    parse_css_file "style.css" ".modal-content\n\x7b\n  padding: 0 !important;\n\x7d" =
      [{ file := "style.css", line_number := 3, selector := "",
         property := "padding", value := "0", category := "7_other" }] := by
  decide

/-- Claim C5 (counterexample).  On the line
`.a \x7b color: red;;!important; \x7d` the matched value text (group 2 of
the regular expression) is `red;;`; stripping a *single* trailing
terminator would leave `red;`, but the code's `rstrip(';')` removes every
trailing semicolon and the record's value is `red`. -/
theorem C5_counterexample :
    parse_css_file "f.css" ".a \x7b color: red;;!important; \x7d" =
      [{ file := "f.css", line_number := 1, selector := "",
         property := "color", value := "red", category := "7_other" }] ∧
    reSearchImp ".a \x7b color: red;;!important; \x7d".data =
      some ("color".data, "red;;".data) ∧
    ("red" : String) ≠ "red;" := by
  refine ⟨by decide, by decide, by decide⟩

/-- Claim C5 (amended): when a line containing the important marker
matches the property:value shape, the record's value is the matched value
text trimmed, with the important marker outside the capture and with
*every* trailing statement terminator stripped (`rstrip(';')`), followed
by a final trim. -/
theorem C5_amended
    (lines : List (List Char)) (fname : String) (sel : List Char)
    (line_num : Nat) (line : List Char) (r : ImportantDeclaration)
    (h : extractAt lines fname sel line_num line = some r) :
    ∃ propCs rawCs, reSearchImp line = some (propCs, rawCs) ∧
      r.value = String.mk (stripChars (rstripSemis (stripChars rawCs))) := by
  unfold extractAt at h
  split at h
  · rcases hm : reSearchImp line with _ | ⟨propCs, rawCs⟩
    · rw [hm] at h; simp at h
    · rw [hm] at h
      refine ⟨propCs, rawCs, rfl, ?_⟩
      cases Option.some.inj h
      rfl
  · simp at h

/-- Witness for C5: the amended statement applied to the concrete line
`.a \x7b color: red;;!important; \x7d`. -/
theorem C5_witness :
    extractAt [".a \x7b color: red;;!important; \x7d".data] "f.css" [] 1
        ".a \x7b color: red;;!important; \x7d".data =
      some { file := "f.css", line_number := 1, selector := "",
             property := "color", value := "red", category := "7_other" } ∧
    ∃ propCs rawCs,
      reSearchImp ".a \x7b color: red;;!important; \x7d".data =
        some (propCs, rawCs) ∧
      ({ file := "f.css", line_number := 1, selector := "", property := "color",
         value := "red", category := "7_other" } : ImportantDeclaration).value =
        String.mk (stripChars (rstripSemis (stripChars rawCs))) :=
  ⟨by decide,
   C5_amended [".a \x7b color: red;;!important; \x7d".data] "f.css" [] 1
     ".a \x7b color: red;;!important; \x7d".data _ (by decide)⟩

/-! ## Claim C8: missing input directory -/

/-- Claim C8 (confirmed): when the styles directory does not exist, the
run reports the terminal error, scans no file, and writes no report
artifact. -/
theorem C8_missing_dir :
    runMain none =
      { missing_dir_error := true, files_scanned := 0, report := none } := rfl

/-! ## Claim C4: total classifier -/

/-- Claim C4 (confirmed): `categorize_selector` is a total function (it
is a Lean `def`, so it can neither raise nor diverge) returning one of
the seven fixed category values for every selector string, and the empty
selector falls through to `7_other`. -/
theorem C4_classifier_total :
    ∀ s pv : String,
      categorize_selector s pv ∈
        ["6_subplot_colors", "5_mode_overrides", "4_selection_states",
         "3_hover_states", "2_validation_states", "1_obsidian_resets",
         "7_other"] ∧
      categorize_selector "" pv = "7_other" := by
  intro s pv
  refine ⟨?_, rfl⟩
  unfold categorize_selector
  split_ifs <;> simp

/-! ## Claims C6 and C9: per-line record production -/

lemma extractAt_eq_none (lines : List (List Char)) (fname : String)
    (sel : List Char) (line_num : Nat) (line : List Char)
    (h : hasSubChars impChars line = false) :
    extractAt lines fname sel line_num line = none := by
  unfold extractAt
  simp [h]

lemma extractAt_line_number {lines : List (List Char)} {fname : String}
    {sel : List Char} {line_num : Nat} {line : List Char}
    {r : ImportantDeclaration}
    (h : extractAt lines fname sel line_num line = some r) :
    r.line_number = line_num := by
  unfold extractAt at h
  split at h
  · split at h
    · cases Option.some.inj h; rfl
    · simp at h
  · simp at h

lemma processLine_snd (lines : List (List Char)) (fname : String)
    (st : ScanState) (n : Nat) (l : List Char) :
    (processLine lines fname st n l).2 =
      extractAt lines fname (trackSelector lines st n l).current_selector n l := rfl

lemma scanFrom_lower (lines : List (List Char)) (fname : String) :
    ∀ (rest : List (List Char)) (st : ScanState) (n : Nat)
      (r : ImportantDeclaration),
      r ∈ scanFrom lines fname st n rest → n ≤ r.line_number := by
  intro rest
  induction rest with
  | nil => intro st n r hr; simp [scanFrom] at hr
  | cons l tl ih =>
    intro st n r hr
    unfold scanFrom at hr
    rcases hp : processLine lines fname st n l with ⟨st', r?⟩
    rw [hp] at hr
    rcases r? with _ | r0
    · exact Nat.le_of_succ_le (ih st' (n + 1) r hr)
    · rcases List.mem_cons.mp hr with h0 | h1
      · have h2 : extractAt lines fname
            (trackSelector lines st n l).current_selector n l = some r0 := by
          have hsnd := congrArg Prod.snd hp
          rw [processLine_snd] at hsnd
          exact hsnd
        subst h0
        have := extractAt_line_number h2
        omega
      · exact Nat.le_of_succ_le (ih st' (n + 1) r h1)

lemma scanFrom_pairwise (lines : List (List Char)) (fname : String) :
    ∀ (rest : List (List Char)) (st : ScanState) (n : Nat),
      (scanFrom lines fname st n rest).Pairwise
        (fun a b => a.line_number < b.line_number) := by
  intro rest
  induction rest with
  | nil => intro st n; simp [scanFrom]
  | cons l tl ih =>
    intro st n
    unfold scanFrom
    rcases hp : processLine lines fname st n l with ⟨st', r?⟩
    rcases r? with _ | r0
    · exact ih st' (n + 1)
    · refine List.Pairwise.cons ?_ (ih st' (n + 1))
      intro b hb
      have hbn : n + 1 ≤ b.line_number := scanFrom_lower lines fname tl st' (n + 1) b hb
      have h2 : extractAt lines fname
          (trackSelector lines st n l).current_selector n l = some r0 := by
        have hsnd := congrArg Prod.snd hp
        rw [processLine_snd] at hsnd
        exact hsnd
      have := extractAt_line_number h2
      omega

/-- Claim C9 (confirmed): the scan produces at most one record per line
(a single regex search per line), so the `line_number` values of a file's
records are strictly increasing. -/
theorem C9_line_numbers_strict_mono (fname content : String) :
    (parse_css_file fname content).Pairwise
      (fun a b => a.line_number < b.line_number) := by
  unfold parse_css_file
  exact scanFrom_pairwise _ fname _ ⟨[], 0⟩ 1

lemma scanFrom_length_le (lines : List (List Char)) (fname : String) :
    ∀ (rest : List (List Char)) (st : ScanState) (n : Nat),
      (scanFrom lines fname st n rest).length ≤
        (rest.filter (fun l => hasSubChars impChars l)).length := by
  intro rest
  induction rest with
  | nil => intro st n; simp [scanFrom]
  | cons l tl ih =>
    intro st n
    unfold scanFrom
    rcases hp : processLine lines fname st n l with ⟨st', r?⟩
    rcases r? with _ | r0
    · cases hm : hasSubChars impChars l
      · simp [List.filter_cons, hm]
        exact le_trans (ih st' (n + 1)) (Nat.le_refl _)
      · simp [List.filter_cons, hm]
        exact Nat.le_succ_of_le (ih st' (n + 1))
    · have hm : hasSubChars impChars l = true := by
        by_contra hm'
        have hn : (processLine lines fname st n l).2 = none := by
          rw [processLine_snd]
          exact extractAt_eq_none _ _ _ _ _ (Bool.eq_false_iff.mpr hm')
        rw [hp] at hn
        simp at hn
      simp [List.filter_cons, hm]
      exact ih st' (n + 1)

/-- Claim C6 (confirmed): for every input file, the number of declaration
records produced by the scan is at most the number of lines of the file
that contain the important marker. -/
theorem C6_record_count_le (fname content : String) :
    (parse_css_file fname content).length ≤
      ((splitOnNl content.data).filter
        (fun l => hasSubChars impChars l)).length := by
  unfold parse_css_file
  exact scanFrom_length_le _ fname _ ⟨[], 0⟩ 1

/-! ## Grouping lemmas for claims C7, C10, C3 -/

lemma addToGroup_sizes {α : Type} (k : String) (x : α)
    (g : List (String × List α)) :
    ((addToGroup k x g).map (fun p => p.2.length)).sum
      = ((g.map (fun p => p.2.length)).sum) + 1 := by
  induction g with
  | nil => simp [addToGroup]
  | cons p rest ih =>
    rcases p with ⟨k0, xs⟩
    unfold addToGroup
    by_cases hk : k0 = k
    · simp [hk]
      omega
    · simp [hk, ih]
      omega

lemma foldl_group_sizes {α : Type} (key : α → String) :
    ∀ (xs : List α) (acc : List (String × List α)),
      ((xs.foldl (fun a x => addToGroup (key x) x a) acc).map
        (fun p => p.2.length)).sum
        = ((acc.map (fun p => p.2.length)).sum) + xs.length := by
  intro xs
  induction xs with
  | nil => intro acc; simp
  | cons x tl ih =>
    intro acc
    simp only [List.foldl_cons, List.length_cons]
    rw [ih (addToGroup (key x) x acc), addToGroup_sizes]
    omega

lemma groupByKey_sizes {α : Type} (key : α → String) (xs : List α) :
    ((groupByKey key xs).map (fun p => p.2.length)).sum = xs.length := by
  simpa [groupByKey] using foldl_group_sizes key xs []

lemma addToGroup_keys {α : Type} (k : String) (x : α)
    (g : List (String × List α)) :
    (addToGroup k x g).map Prod.fst
      = if k ∈ g.map Prod.fst then g.map Prod.fst
        else g.map Prod.fst ++ [k] := by
  induction g with
  | nil => simp [addToGroup]
  | cons p rest ih =>
    rcases p with ⟨k0, xs⟩
    unfold addToGroup
    by_cases hk : k0 = k
    · simp [hk]
    · have hne : ¬ k = k0 := fun h => hk h.symm
      by_cases hmem : k ∈ rest.map Prod.fst
      · simp [hk, ih, hmem, hne]
      · simp [hk, ih, hmem, hne]

lemma foldl_group_keys_nodup {α : Type} (key : α → String) :
    ∀ (xs : List α) (acc : List (String × List α)),
      (acc.map Prod.fst).Nodup →
      ((xs.foldl (fun a x => addToGroup (key x) x a) acc).map Prod.fst).Nodup := by
  intro xs
  induction xs with
  | nil => intro acc h; simpa using h
  | cons x tl ih =>
    intro acc h
    simp only [List.foldl_cons]
    refine ih (addToGroup (key x) x acc) ?_
    rw [addToGroup_keys]
    by_cases hmem : key x ∈ acc.map Prod.fst
    · simpa [hmem] using h
    · simp only [hmem, if_false]
      rw [List.nodup_append]
      exact ⟨h, List.nodup_singleton _, by simpa using fun h' => hmem h'⟩

lemma groupByKey_keys_nodup {α : Type} (key : α → String) (xs : List α) :
    ((groupByKey key xs).map Prod.fst).Nodup := by
  simpa [groupByKey] using foldl_group_keys_nodup key xs [] (by simp)

lemma addToGroup_snd_ne_nil {α : Type} (k : String) (x : α)
    (g : List (String × List α)) (h : ∀ p ∈ g, p.2 ≠ []) :
    ∀ p ∈ addToGroup k x g, p.2 ≠ [] := by
  induction g with
  | nil =>
    intro p hp
    simp [addToGroup] at hp
    subst hp
    simp
  | cons q rest ih =>
    rcases q with ⟨k0, xs⟩
    intro p hp
    unfold addToGroup at hp
    by_cases hk : k0 = k
    · simp [hk] at hp
      rcases hp with hp | hp
      · subst hp; simp
      · exact h p (List.mem_cons_of_mem _ hp)
    · simp [hk] at hp
      rcases hp with hp | hp
      · subst hp
        exact h (k0, xs) (List.mem_cons_self _ _)
      · exact ih (fun q hq => h q (List.mem_cons_of_mem _ hq)) p hp

lemma foldl_group_snd_ne_nil {α : Type} (key : α → String) :
    ∀ (xs : List α) (acc : List (String × List α)),
      (∀ p ∈ acc, p.2 ≠ []) →
      ∀ p ∈ xs.foldl (fun a x => addToGroup (key x) x a) acc, p.2 ≠ [] := by
  intro xs
  induction xs with
  | nil => intro acc h; simpa using h
  | cons x tl ih =>
    intro acc h
    simp only [List.foldl_cons]
    exact ih (addToGroup (key x) x acc) (addToGroup_snd_ne_nil _ _ _ h)

lemma groupByKey_snd_ne_nil {α : Type} (key : α → String) (xs : List α) :
    ∀ p ∈ groupByKey key xs, p.2 ≠ [] := by
  simpa [groupByKey] using foldl_group_snd_ne_nil key xs [] (by simp)

lemma lookupGroup_cons_self {α : Type} (k : String) (g : List α)
    (rest : List (String × List α)) :
    lookupGroup ((k, g) :: rest) k = g := by
  simp [lookupGroup, List.find?]

lemma lookupGroup_cons_ne {α : Type} (k0 k : String) (g : List α)
    (rest : List (String × List α)) (h : k0 ≠ k) :
    lookupGroup ((k0, g) :: rest) k = lookupGroup rest k := by
  have hb : (k0 == k) = false := beq_eq_false_iff_ne.mpr h
  simp [lookupGroup, List.find?, hb]

lemma lookup_map_eq {α : Type} :
    ∀ (groups : List (String × List α)),
      (groups.map Prod.fst).Nodup →
      (groups.map Prod.fst).map (fun k => lookupGroup groups k)
        = groups.map Prod.snd := by
  intro groups
  induction groups with
  | nil => intro _; simp
  | cons p rest ih =>
    rcases p with ⟨k, g⟩
    intro h
    rw [List.map_cons, List.map_cons, List.map_cons]
    have hk : k ∉ rest.map Prod.fst := by
      simp only [List.map_cons, List.nodup_cons] at h
      exact h.1
    have hrest : (rest.map Prod.fst).Nodup := by
      simp only [List.map_cons, List.nodup_cons] at h
      exact h.2
    congr 1
    · exact lookupGroup_cons_self k g rest
    · rw [← ih hrest]
      refine List.map_congr_left ?_
      intro k' hk'
      have : k ≠ k' := fun he => hk (he ▸ hk')
      exact lookupGroup_cons_ne k k' g rest this

lemma lookupGroup_ne_nil {α : Type} :
    ∀ (groups : List (String × List α)) (k : String),
      (∀ p ∈ groups, p.2 ≠ []) → k ∈ groups.map Prod.fst →
      lookupGroup groups k ≠ [] := by
  intro groups
  induction groups with
  | nil => intro k _ hk; simp at hk
  | cons p rest ih =>
    rcases p with ⟨k0, g⟩
    intro k h hk
    by_cases he : k0 = k
    · subst he
      rw [lookupGroup_cons_self]
      exact h (k0, g) (List.mem_cons_self _ _)
    · rw [lookupGroup_cons_ne _ _ _ _ he]
      have : k ∈ rest.map Prod.fst := by
        simp at hk
        rcases hk with hk | hk
        · exact absurd hk.symm he
        · simpa using hk
      exact ih k (fun q hq => h q (List.mem_cons_of_mem _ hq)) this

lemma insertByKey_perm {α : Type} (key : α → String) (x : α) :
    ∀ (l : List α), (insertByKey key x l).Perm (x :: l) := by
  intro l
  induction l with
  | nil => simp [insertByKey]
  | cons y ys ih =>
    unfold insertByKey
    by_cases h : ltStr (key y) (key x)
    · simp only [h, if_true]
      exact (ih.cons y).trans (List.Perm.swap x y ys)
    · simp [h]

lemma sortByKey_perm {α : Type} (key : α → String) :
    ∀ (l : List α), (sortByKey key l).Perm l := by
  intro l
  induction l with
  | nil => simp [sortByKey]
  | cons x xs ih =>
    unfold sortByKey
    exact (insertByKey_perm key x (sortByKey key xs)).trans (ih.cons x)

/-! ## Claim C7: grouping totals -/

lemma buildReport_counts_map (all : List ImportantDeclaration) :
    (buildReport all).by_category.map (fun e => e.2.count)
      = (sortByKey (fun k => k)
          ((groupByKey (fun d => d.category) all).map Prod.fst)).map
          (fun k =>
            (lookupGroup (groupByKey (fun d => d.category) all) k).length) := by
  unfold buildReport
  simp only [List.map_map]
  rfl

lemma buildReport_total (all : List ImportantDeclaration) :
    (buildReport all).total
      = (((buildReport all).by_category.map (fun e => e.2.count)).sum) := by
  rw [buildReport_counts_map]
  rw [((sortByKey_perm (fun k => k)
      ((groupByKey (fun d => d.category) all).map Prod.fst)).map
      (fun k =>
        (lookupGroup (groupByKey (fun d => d.category) all) k).length)).sum_eq]
  have hl := lookup_map_eq (groupByKey (fun d => d.category) all)
    (groupByKey_keys_nodup _ all)
  have hA : ((groupByKey (fun d => d.category) all).map Prod.fst).map
      (fun k => (lookupGroup (groupByKey (fun d => d.category) all) k).length)
      = List.map List.length
          (((groupByKey (fun d => d.category) all).map Prod.fst).map
            (fun k => lookupGroup (groupByKey (fun d => d.category) all) k)) := by
    conv_rhs => rw [List.map_map]
    exact rfl
  have hB : (groupByKey (fun d => d.category) all).map
      (fun p => p.2.length)
      = List.map List.length
          ((groupByKey (fun d => d.category) all).map Prod.snd) := by
    rw [List.map_map]
    exact rfl
  rw [hA, hl, ← hB, groupByKey_sizes]
  rfl

lemma buildReport_files_map (all : List ImportantDeclaration) :
    (buildReport all).by_category.map
        (fun e => (e.2.files.map (fun p => p.2.length)).sum)
      = (sortByKey (fun k => k)
          ((groupByKey (fun d => d.category) all).map Prod.fst)).map
          (fun k =>
            (((groupByKey (fun d : ImportantDeclaration => d.file)
              (lookupGroup
                (groupByKey (fun d : ImportantDeclaration => d.category) all)
                k)).map (fun p => p.2.length)).sum)) := by
  unfold buildReport
  simp only [List.map_map]
  rfl

lemma buildReport_counts (all : List ImportantDeclaration) :
    ((buildReport all).by_category.map (fun e => e.2.count))
      = ((buildReport all).by_category.map
          (fun e => (e.2.files.map (fun p => p.2.length)).sum)) := by
  rw [buildReport_counts_map, buildReport_files_map]
  refine List.map_congr_left (fun k _ => ?_)
  exact (groupByKey_sizes (fun d : ImportantDeclaration => d.file) _).symm

/-- Claim C7 (confirmed): in the structured report, `total` equals the
sum of the per-category counts, and each category's count equals the sum
of that category's per-file sub-counts. -/
theorem C7_totals_consistent (files : List (String × String)) :
    (runReport files).total
      = (((runReport files).by_category.map (fun e => e.2.count)).sum) ∧
    ((runReport files).by_category.map (fun e => e.2.count))
      = ((runReport files).by_category.map
          (fun e => (e.2.files.map (fun p => p.2.length)).sum)) :=
  ⟨buildReport_total _, buildReport_counts _⟩

/-! ## Claim C10: only non-empty categories appear -/

lemma buildReport_count_pos (all : List ImportantDeclaration)
    (e : String × CategoryEntry) (he : e ∈ (buildReport all).by_category) :
    0 < e.2.count := by
  unfold buildReport at he
  rcases List.mem_map.mp he with ⟨k, hk, rfl⟩
  have hmem : k ∈ (groupByKey (fun d => d.category) all).map Prod.fst :=
    (sortByKey_perm (fun k => k) _).mem_iff.mp hk
  have hne : lookupGroup (groupByKey (fun d => d.category) all) k ≠ [] :=
    lookupGroup_ne_nil _ k (groupByKey_snd_ne_nil _ all) hmem
  simpa using List.length_pos.mpr hne

/-- Claim C10 (confirmed): the report's `by_category` mapping has an
entry only for categories with at least one record (every entry's count
is positive), and an empty input set yields an empty `by_category`
mapping. -/
theorem C10_by_category_nonempty :
    (∀ (files : List (String × String)) (e : String × CategoryEntry),
        e ∈ (runReport files).by_category → 0 < e.2.count) ∧
    (runReport []).by_category = [] :=
  ⟨fun _ e he => buildReport_count_pos _ e he, rfl⟩

/-- Witness for C10: a concrete one-file input whose report has the
single category entry `7_other` with count 1. -/
theorem C10_witness :
    (("7_other",
      ({ name := "Category 7: Other/Uncategorized", count := 1,
         files := [("a.css",
           [{ file := "a.css", line_number := 2, selector := "x",
              property := "color", value := "red",
              category := "7_other" }])] } : CategoryEntry))
        ∈ (runReport [("a.css", "x \x7b\ncolor: red !important;\n\x7d")]).by_category) ∧
    0 < (1 : Nat) :=
  ⟨by decide,
   C10_by_category_nonempty.1 [("a.css", "x \x7b\ncolor: red !important;\n\x7d")]
     ("7_other",
      { name := "Category 7: Other/Uncategorized", count := 1,
        files := [("a.css",
          [{ file := "a.css", line_number := 2, selector := "x",
             property := "color", value := "red",
             category := "7_other" }])] })
     (by decide)⟩

/-! ## Claim C3: order of the report's category entries -/

lemma ltChars_irrefl : ∀ a : List Char, ltChars a a = false := by
  intro a
  induction a with
  | nil => rfl
  | cons c cs ih =>
    unfold ltChars
    rw [if_neg (lt_irrefl c), if_neg (lt_irrefl c)]
    exact ih

lemma ltChars_trans : ∀ a b c : List Char,
    ltChars a b = true → ltChars b c = true → ltChars a c = true := by
  intro a
  induction a with
  | nil =>
    intro b c hab hbc
    cases b with
    | nil => exact absurd hab (by simp [ltChars])
    | cons y ys =>
      cases c with
      | nil => exact absurd hbc (by simp [ltChars])
      | cons z zs => rfl
  | cons x xs ih =>
    intro b c hab hbc
    cases b with
    | nil => exact absurd hab (by simp [ltChars])
    | cons y ys =>
      cases c with
      | nil => exact absurd hbc (by simp [ltChars])
      | cons z zs =>
        unfold ltChars at hab hbc ⊢
        by_cases h1 : x < y
        · by_cases h2 : y < z
          · rw [if_pos (lt_trans h1 h2)]
          · by_cases h3 : z < y
            · rw [if_neg h2, if_pos h3] at hbc
              exact absurd hbc (by simp)
            · have hyz : y = z := by
                rcases lt_trichotomy y z with h | h | h
                · exact absurd h h2
                · exact h
                · exact absurd h h3
              subst hyz
              rw [if_pos h1]
        · by_cases h4 : y < x
          · rw [if_neg h1, if_pos h4] at hab
            exact absurd hab (by simp)
          · have hxy : x = y := by
              rcases lt_trichotomy x y with h | h | h
              · exact absurd h h1
              · exact h
              · exact absurd h h4
            subst hxy
            rw [if_neg h1, if_neg h4] at hab
            by_cases h2 : x < z
            · rw [if_pos h2]
            · by_cases h3 : z < x
              · rw [if_neg h2, if_pos h3] at hbc
                exact absurd hbc (by simp)
              · have hxz : x = z := by
                  rcases lt_trichotomy x z with h | h | h
                  · exact absurd h h2
                  · exact h
                  · exact absurd h h3
                subst hxz
                rw [if_neg h2, if_neg h3] at hbc ⊢
                exact ih ys zs hab hbc

lemma ltChars_asymm (a b : List Char) (hab : ltChars a b = true) :
    ltChars b a = false := by
  cases hq : ltChars b a
  · rfl
  · have := ltChars_trans a b a hab hq
    rw [ltChars_irrefl] at this
    exact absurd this (by simp)

lemma ltChars_conn : ∀ a b : List Char,
    ltChars a b = false → ltChars b a = false → a = b := by
  intro a
  induction a with
  | nil =>
    intro b hab _
    cases b with
    | nil => rfl
    | cons y ys => simp [ltChars] at hab
  | cons x xs ih =>
    intro b hab hba
    cases b with
    | nil => simp [ltChars] at hba
    | cons y ys =>
      unfold ltChars at hab hba
      by_cases h1 : x < y
      · rw [if_pos h1] at hab
        exact absurd hab (by simp)
      · by_cases h2 : y < x
        · rw [if_pos h2] at hba
          exact absurd hba (by simp)
        · have hxy : x = y := by
            rcases lt_trichotomy x y with h | h | h
            · exact absurd h h1
            · exact h
            · exact absurd h h2
          subst hxy
          rw [if_neg h1, if_neg h1] at hab
          rw [if_neg h1, if_neg h1] at hba
          rw [ih ys hab hba]

lemma ltStr_asymm (a b : String) (h : ltStr a b = true) : ltStr b a = false :=
  ltChars_asymm a.data b.data h

lemma ltStr_conn (a b : String) (h1 : ltStr a b = false)
    (h2 : ltStr b a = false) : a = b := by
  have := ltChars_conn a.data b.data h1 h2
  cases a; cases b
  exact congrArg String.mk this

lemma ltStr_false_trans (a b c : String) (h1 : ltStr b a = false)
    (h2 : ltStr c b = false) : ltStr c a = false := by
  cases hq : ltStr c a
  · rfl
  · by_cases hab : ltStr a b = true
    · have hcb : ltStr c b = true := ltChars_trans c.data a.data b.data hq hab
      rw [hcb] at h2
      exact absurd h2 (by simp)
    · have hab' : ltStr a b = false := by
        cases h : ltStr a b
        · rfl
        · exact absurd h hab
      have := ltStr_conn a b hab' h1
      subst this
      rw [hq] at h2
      exact absurd h2 (by simp)

lemma mem_insertByKey {α : Type} (key : α → String) (x : α) :
    ∀ (l : List α) (z : α), z ∈ insertByKey key x l → z = x ∨ z ∈ l := by
  intro l
  induction l with
  | nil =>
    intro z hz
    simp [insertByKey] at hz
    exact Or.inl hz
  | cons y ys ih =>
    intro z hz
    unfold insertByKey at hz
    by_cases h : ltStr (key y) (key x)
    · rw [if_pos h] at hz
      rcases List.mem_cons.mp hz with hz | hz
      · exact Or.inr (hz ▸ List.mem_cons_self _ _)
      · rcases ih z hz with h' | h'
        · exact Or.inl h'
        · exact Or.inr (List.mem_cons_of_mem _ h')
    · rw [if_neg h] at hz
      rcases List.mem_cons.mp hz with hz | hz
      · exact Or.inl hz
      · exact Or.inr hz

lemma insertByKey_sorted {α : Type} (key : α → String) (x : α) :
    ∀ (l : List α),
      l.Pairwise (fun a b => ltStr (key b) (key a) = false) →
      (insertByKey key x l).Pairwise
        (fun a b => ltStr (key b) (key a) = false) := by
  intro l
  induction l with
  | nil => intro _; simp [insertByKey]
  | cons y ys ih =>
    intro hp
    rcases List.pairwise_cons.mp hp with ⟨hy, hys⟩
    unfold insertByKey
    by_cases h : ltStr (key y) (key x)
    · rw [if_pos h]
      refine List.pairwise_cons.mpr ⟨?_, ih hys⟩
      intro z hz
      rcases mem_insertByKey key x ys z hz with rfl | hz'
      · exact ltStr_asymm _ _ h
      · exact hy z hz'
    · rw [if_neg h]
      refine List.pairwise_cons.mpr ⟨?_, hp⟩
      intro z hz
      have hyx : ltStr (key y) (key x) = false := by
        cases hq : ltStr (key y) (key x)
        · rfl
        · exact absurd hq h
      rcases List.mem_cons.mp hz with rfl | hz'
      · exact hyx
      · exact ltStr_false_trans _ _ _ hyx (hy z hz')

lemma sortByKey_sorted {α : Type} (key : α → String) :
    ∀ (l : List α),
      (sortByKey key l).Pairwise (fun a b => ltStr (key b) (key a) = false) := by
  intro l
  induction l with
  | nil => simp [sortByKey]
  | cons x xs ih =>
    unfold sortByKey
    exact insertByKey_sorted key x (sortByKey key xs) ih

lemma buildReport_by_category_sorted (all : List ImportantDeclaration) :
    ((buildReport all).by_category).Pairwise
      (fun a b => ltStr a.1 b.1 = true) := by
  unfold buildReport
  refine List.pairwise_map.mpr ?_
  have hs : (sortByKey (fun k => k)
      ((groupByKey (fun d => d.category) all).map Prod.fst)).Pairwise
      (fun a b => ltStr b a = false) :=
    sortByKey_sorted (fun k => k) _
  have hn : (sortByKey (fun k => k)
      ((groupByKey (fun d => d.category) all).map Prod.fst)).Nodup :=
    ((sortByKey_perm (fun k => k) _).nodup_iff).mpr (groupByKey_keys_nodup _ all)
  refine (hs.and hn).imp ?_
  intro a b hab
  rcases hab with ⟨hle, hne⟩
  cases hq : ltStr a b
  · exact absurd (ltStr_conn a b hq hle) hne
  · rfl

/-- Claim C3 (amended): the categories in the structured report's
`by_category` appear in ascending lexicographic order of the category
keys — `1_obsidian_resets` first through `7_other` last — which is the
`sorted(...)` iteration order of the code, not the §4.3 evaluation order
and not discovery order. -/
theorem C3_by_category_sorted (files : List (String × String)) :
    ((runReport files).by_category).Pairwise
      (fun a b => ltStr a.1 b.1 = true) :=
  buildReport_by_category_sorted _

/-- Claim C3 (counterexample).  An input containing a host-application
reset record and a subplot-color record: the claim's category-enumeration
order would list `6_subplot_colors` first, but the report lists
`1_obsidian_resets` first — `by_category` is iterated in ascending sorted
key order, the reverse of the §4.3 evaluation order. -/
theorem C3_counterexample :
    ((runReport [("a.css",
        ".modal-content \x7b\n  padding: 0 !important;\n\x7d\n[data-subplot-idx] .x \x7b\n  color: red !important;\n\x7d")]).by_category.map
      Prod.fst) = ["1_obsidian_resets", "6_subplot_colors"] ∧
    (["1_obsidian_resets", "6_subplot_colors"] : List String) ≠
      ["6_subplot_colors", "1_obsidian_resets"] := by
  refine ⟨by decide, by decide⟩

end RadialTimeline
